import Mathlib

/-!
Verification of the LTE SRS generation toolkit (`lte_srs`).

The Python sources (`lte_srs/config.py`, `lte_srs/sequences.py`) are shallowly
embedded below.  Machine integers are modelled by `Nat`/`Int` (Python integers
are unbounded, and every field of a validated `SRSConfig` is non-negative, so
`Nat` is the faithful carrier for configuration data).  The float-valued
cyclic shift is modelled by `ℚ` (every IEEE float is a rational); complex
signal samples are modelled by `ℂ` and float arithmetic by exact real
arithmetic.  Fallible operations return `Except String`.

NumPy's negative-index wrap-around matters in `generate_prs`: the loop body
`x1[n] = (x1[n-3] + x1[n-31]) % 2` reads `x1[n-3]` and `x1[n-31]` with
possibly negative Python indices, which NumPy resolves to `len + i`.  The
embedding makes this explicit via `(n + len - k) % len`, which equals the
NumPy resolution of index `n - k` whenever `1 ≤ n < len` and `k ≤ 31 ≤ len`.
-/

open scoped BigOperators

/-- `SRSConfig` from `lte_srs/config.py`.  All integer fields of a validated
configuration are non-negative, so they are carried as `Nat`; the float field
`cyclic_shift` is carried as `ℚ`. -/
structure SRSConfig where
  cell_id : Nat
  bandwidth_config : Nat
  subframe_config : Nat
  b_hop : Nat
  group_hopping_enabled : Bool
  sequence_hopping_enabled : Bool
  transmission_comb : Nat
  cyclic_shift : ℚ
  srs_bandwidth : Nat
  n_ul_rb : Nat
  n_zc : Option Nat
deriving DecidableEq

/-- The checks performed by `SRSConfig.__post_init__` (non-negativity of the
integer fields is built into the `Nat` carrier). -/
def SRSConfig.Valid (c : SRSConfig) : Prop :=
  c.cell_id ≤ 503 ∧ c.transmission_comb ≤ 1 ∧ 0 < c.n_ul_rb

instance (c : SRSConfig) : Decidable c.Valid := by
  unfold SRSConfig.Valid; infer_instance

/-- `SRSConfig.is_active_subframe`. -/
def SRSConfig.is_active_subframe (c : SRSConfig) (subframe : Nat) : Bool :=
  if c.subframe_config = 0 then false
  else subframe % c.subframe_config == 0

/-- `SRSConfig.alpha` (the `float(cyclic_shift)` property). -/
def SRSConfig.alpha (c : SRSConfig) : ℚ := c.cyclic_shift

/-- `SRSConfig.zc_length`: the `n_zc` override, or 839. -/
def SRSConfig.zc_length (c : SRSConfig) : Nat := c.n_zc.getD 839

/-- `SRSConfig.bandwidth_in_subcarriers`. -/
def SRSConfig.bandwidth_in_subcarriers (c : SRSConfig) : Nat :=
  let scaling := 2 ^ max c.bandwidth_config 0
  let raw := (c.srs_bandwidth + 1) * 12 * scaling
  let max_sc := c.n_ul_rb * 12
  min raw max_sc

/-- `SRSConfig.comb_spacing`. -/
def SRSConfig.comb_spacing (_c : SRSConfig) : Nat := 2

/-- `HoppingState` from `lte_srs/config.py`. -/
structure HoppingState where
  group_number : Nat
  sequence_number : Nat
  f_gh : Nat
  f_ss : Nat
deriving DecidableEq

/-- `MappingInfo` from `lte_srs/config.py` (`alpha` carried as `ℚ`). -/
structure MappingInfo where
  subframe_index : Nat
  slot_index : Nat
  root_index : Nat
  alpha : ℚ
  m_sc : Nat
  comb : Nat
  n_fft : Nat
  k0 : Int
  hopping : HoppingState
deriving DecidableEq

/-! ### The Gold-sequence generator `generate_prs`

The NumPy arrays `x1`, `x2` (length `L + 31`) are modelled as total functions
`Nat → Nat` built by the same sequence of writes the Python loops perform;
the array is zero-initialised, so unwritten cells read `0`. -/

/-- State of `x2` after the seeding loop `for n in range(31): x2[n] = (c_init >> n) & 1`
applied to the zero array. -/
def x2init (s : Nat) : Nat → Nat :=
  (List.range 31).foldl (fun a n => Function.update a n ((s >>> n) &&& 1)) (fun _ => 0)

/-- State of `x1` after the writes for `n = 1, …, m` of the loop
`for n in range(1, length + 31): x1[n] = (x1[n-3] + x1[n-31]) % 2`,
starting from the zero array with `x1[0] = 1`.  The Python indices `n-3` and
`n-31` may be negative; NumPy resolves a negative index `i` to `len + i`,
which for `1 ≤ n < len` is exactly `(n + len - k) % len`. -/
def x1arr (L : Nat) : Nat → (Nat → Nat)
  | 0 => Function.update (fun _ => 0) 0 1
  | m + 1 =>
      let a := x1arr L m
      let len := L + 31
      Function.update a (m + 1)
        ((a ((m + 1 + len - 3) % len) + a ((m + 1 + len - 31) % len)) % 2)

/-- State of `x2` after the writes for `n = 31, …, 30 + m` of the loop
`for n in range(31, length + 31): x2[n] = (x2[n-3] + x2[n-2] + x2[n-1] + x2[n-31]) % 2`
(all indices are non-negative here). -/
def x2arr (s : Nat) : Nat → (Nat → Nat)
  | 0 => x2init s
  | m + 1 =>
      let a := x2arr s m
      Function.update a (31 + m)
        ((a (31 + m - 3) + a (31 + m - 2) + a (31 + m - 1) + a (31 + m - 31)) % 2)

/-- `generate_prs` from `lte_srs/sequences.py` for a non-negative requested
length: `c = (x1[31:] + x2[31:]) % 2; return c[:length]`. -/
def generate_prs (c_init : Nat) (length : Nat) : List Nat :=
  let x1 := x1arr length (length + 30)
  let x2 := x2arr c_init length
  (List.range length).map fun n => (x1 (n + 31) + x2 (n + 31)) % 2

/-- The specified `x1` recurrence of the Gold sequence: `x1[0] = 1`,
`x1[1] = x1[2] = 0`, and for `n ≥ 3`,
`x1[n] = (x1[n-3] + x1[n-31]) mod 2` with terms of negative index taken as 0. -/
def x1spec : Nat → Nat
  | 0 => 1
  | 1 => 0
  | 2 => 0
  | n + 3 => (x1spec n + if n + 3 < 31 then 0 else x1spec (n + 3 - 31)) % 2

/-- The specified `x2` recurrence of the Gold sequence: for `n < 31`,
`x2[n]` is bit `n` of the seed (least-significant bit first, i.e.
`(s >>> n) &&& 1`); for `n ≥ 31`,
`x2[n] = (x2[n-3] + x2[n-2] + x2[n-1] + x2[n-31]) mod 2`. -/
def x2spec (s : Nat) (n : Nat) : Nat :=
  if h : n < 31 then (s >>> n) &&& 1
  else (x2spec s (n - 3) + x2spec s (n - 2) + x2spec s (n - 1) + x2spec s (n - 31)) % 2
termination_by n
decreasing_by
  all_goals omega

/-- `group_and_sequence_hopping` from `lte_srs/sequences.py`. -/
def group_and_sequence_hopping (config : SRSConfig) (slot_index : Nat) : HoppingState :=
  let f_ss := config.cell_id % 30
  let f_gh :=
    if config.group_hopping_enabled then
      let c_init := ((slot_index / 2 + 1) * (config.cell_id + 1) * 2 ^ 9 + config.cell_id) % 2 ^ 31
      let c := generate_prs c_init (8 * (slot_index + 1))
      let start := 8 * slot_index
      (∑ i in Finset.range 8, (c.getD (start + i) 0) <<< i) % 30
    else 0
  let group_number := (f_ss + f_gh) % 30
  let seq_shift := if config.sequence_hopping_enabled then f_gh % 30 else 0
  let sequence_number := (group_number + seq_shift) % 30
  ⟨group_number, sequence_number, f_gh, f_ss⟩

/-! ### Bounds-checked model of `generate_prs` for arbitrary integer lengths

Python's `length` parameter is a plain `int` and may be negative.  The code
has no explicit check: for negative lengths it fails inside NumPy, either at
`np.zeros(length + 31)` (negative dimension) or at an out-of-range index in
one of the loops.  The model below embeds NumPy 1-d integer arrays with
Python index semantics (`-size ≤ i < size`, negative `i` resolving to
`size + i`, anything else an `IndexError`) and threads the possible failures
through `Except`. -/

/-- Resolve a Python/NumPy index against an array of size `size`. -/
def pyIdx (size : Nat) (i : Int) : Except String Nat :=
  if 0 ≤ i ∧ i < (size : Int) then .ok i.toNat
  else if -(size : Int) ≤ i ∧ i < 0 then .ok (i + size).toNat
  else .error "IndexError: index out of bounds"

/-- A NumPy 1-d integer array: a size and a total backing function
(zero outside the written cells). -/
structure NpIntArr where
  size : Nat
  data : Nat → Nat

/-- Bounds-checked read `a[i]`. -/
def NpIntArr.getE (a : NpIntArr) (i : Int) : Except String Nat :=
  (pyIdx a.size i).map a.data

/-- Bounds-checked write `a[i] = v`. -/
def NpIntArr.setE (a : NpIntArr) (i : Int) (v : Nat) : Except String NpIntArr :=
  (pyIdx a.size i).map fun j => ⟨a.size, Function.update a.data j v⟩

/-- `np.zeros(n, dtype=int)`: fails on a negative dimension. -/
def npZerosE (n : Int) : Except String NpIntArr :=
  if n < 0 then .error "ValueError: negative dimensions are not allowed"
  else .ok ⟨n.toNat, fun _ => 0⟩

/-- Python `range(a, b)` as a list of integers. -/
def pyRange (a b : Int) : List Int :=
  (List.range (b - a).toNat).map fun (k : Nat) => a + (k : Int)

/-- `generate_prs` with its `length` argument an arbitrary integer, with all
NumPy array allocations and accesses bounds-checked.  This is the same code
as `generate_prs`, retaining the failure behaviour for negative lengths
(the final slices `x1[31:]`, `x2[31:]`, `c[:length]` never fail in Python;
for a non-negative `length` the reads below are exactly those slices). -/
def generate_prs_impl (c_init : Nat) (length : Int) : Except String (List Nat) := do
  let x1 ← npZerosE (length + 31)
  let x2 ← npZerosE (length + 31)
  let x1 ← x1.setE 0 1
  let x1 ← (pyRange 1 (length + 31)).foldlM (fun a n => do
      let v3 ← a.getE (n - 3)
      let v31 ← a.getE (n - 31)
      a.setE n ((v3 + v31) % 2)) x1
  let x2 ← (pyRange 0 31).foldlM (fun a n =>
      a.setE n ((c_init >>> n.toNat) &&& 1)) x2
  let x2 ← (pyRange 31 (length + 31)).foldlM (fun a n => do
      let v3 ← a.getE (n - 3)
      let v2 ← a.getE (n - 2)
      let v1 ← a.getE (n - 1)
      let v31 ← a.getE (n - 31)
      a.setE n ((v3 + v2 + v1 + v31) % 2)) x2
  let outLen := min (max length 0).toNat (x1.size - 31)
  (List.range outLen).mapM fun (n : Nat) => do
      let b1 ← x1.getE ((n : Int) + 31)
      let b2 ← x2.getE ((n : Int) + 31)
      pure ((b1 + b2) % 2)

/-! ### Complex-valued signal pipeline -/

/-- `generate_zadoff_chu` from `lte_srs/sequences.py`:
`exp(-1j * pi * u * n * (n + 1) / N_zc)` for `n = 0, …, N_zc - 1`. -/
noncomputable def generate_zadoff_chu (u : Nat) (N_zc : Nat) : List ℂ :=
  (List.range N_zc).map fun (n : Nat) =>
    Complex.exp (-(Complex.I * (Real.pi : ℂ) * (u : ℂ) * (n : ℂ) * ((n : ℂ) + 1)) / (N_zc : ℂ))

/-- `apply_cyclic_shift` from `lte_srs/sequences.py`:
`seq * exp(1j * alpha * n)` elementwise (`alpha` a float, modelled in `ℚ`). -/
noncomputable def apply_cyclic_shift (seq : List ℂ) (alpha : ℚ) : List ℂ :=
  seq.mapIdx fun n v => v * Complex.exp (Complex.I * (alpha : ℂ) * (n : ℂ))

/-- The comb-placement loop of `map_to_frequency_grid`: state of the
(zero-initialised) grid after the writes for `m = 0, …, steps - 1` of
`for m, value in enumerate(seq): k = k0 + m * spacing; if 0 <= k < n_fft: grid[k] = value`. -/
noncomputable def gridAux (k0 : Int) (spacing : Nat) (seq : List ℂ) (n_fft : Nat) :
    Nat → (Nat → ℂ)
  | 0 => fun _ => 0
  | m + 1 =>
      let g := gridAux k0 spacing seq n_fft m
      let k : Int := k0 + (m : Int) * (spacing : Int)
      if 0 ≤ k ∧ k < (n_fft : Int) then Function.update g k.toNat (seq.getD m 0) else g

/-- The grid of `map_to_frequency_grid` before `np.fft.ifftshift`
(named `grid_shifted` in the source). -/
noncomputable def grid_shifted_of (seq : List ℂ) (config : SRSConfig) (n_fft : Nat) : Nat → ℂ :=
  gridAux ((n_fft / 2 : Nat) - ((seq.length / 2 : Nat) : Int) * (config.comb_spacing : Int)
      + (config.transmission_comb : Int))
    config.comb_spacing seq n_fft seq.length

/-- `map_to_frequency_grid` from `lte_srs/sequences.py`.  The returned grid is
`np.fft.ifftshift(grid_shifted)`, i.e. `grid[i] = grid_shifted[(i + n_fft/2) % n_fft]`. -/
noncomputable def map_to_frequency_grid (seq : List ℂ) (config : SRSConfig) (n_fft : Nat) :
    (Nat → ℂ) × Int :=
  let spacing := config.comb_spacing
  let center : Int := (n_fft / 2 : Nat)
  let m_sc := seq.length
  let k0 : Int := center - ((m_sc / 2 : Nat) : Int) * (spacing : Int) + (config.transmission_comb : Int)
  let grid_shifted := gridAux k0 spacing seq n_fft m_sc
  (fun i => grid_shifted ((i + n_fft / 2) % n_fft), k0)

/-- `np.fft.ifft` of a length-`n` grid (NumPy normalisation `1/n`). -/
noncomputable def npIfft (g : Nat → ℂ) (n : Nat) : Nat → ℂ :=
  fun t => (∑ k in Finset.range n,
    g k * Complex.exp (2 * (Real.pi : ℂ) * Complex.I * (k : ℂ) * (t : ℂ) / (n : ℂ))) / (n : ℂ)

/-- `root_index = hopping.sequence_number` in `generate_srs`
(with `slot_index = subframe_index * 2`). -/
def srs_root_index (config : SRSConfig) (subframe_index : Nat) : Nat :=
  (group_and_sequence_hopping config (subframe_index * 2)).sequence_number

/-- `base_seq = generate_zadoff_chu(root_index, N_zc)` in `generate_srs`. -/
noncomputable def srs_base_seq (config : SRSConfig) (subframe_index : Nat) : List ℂ :=
  generate_zadoff_chu (srs_root_index config subframe_index) config.zc_length

/-- `truncated_seq = base_seq[:m_sc]` in `generate_srs`. -/
noncomputable def srs_truncated (config : SRSConfig) (subframe_index : Nat) : List ℂ :=
  (srs_base_seq config subframe_index).take config.bandwidth_in_subcarriers

/-- `shifted_seq = apply_cyclic_shift(truncated_seq, config.alpha)` in `generate_srs`. -/
noncomputable def srs_sequence (config : SRSConfig) (subframe_index : Nat) : List ℂ :=
  apply_cyclic_shift (srs_truncated config subframe_index) config.alpha

/-- `generate_srs` from `lte_srs/sequences.py`.  The intermediate local
variables of the source are the named definitions above; the error string is
the source's f-string. -/
noncomputable def generate_srs (config : SRSConfig) (subframe_index : Nat)
    (n_fft : Nat := 2048) : Except String ((Nat → ℂ) × MappingInfo) :=
  if !(config.is_active_subframe subframe_index) then
    .error ("Subframe " ++ toString subframe_index ++ " is not active for this UE (T_srs="
      ++ toString config.subframe_config ++ ").")
  else
    let slot_index := subframe_index * 2
    let hopping := group_and_sequence_hopping config slot_index
    let root_index := hopping.sequence_number
    let m_sc := config.bandwidth_in_subcarriers
    let shifted_seq := srs_sequence config subframe_index
    let fg := map_to_frequency_grid shifted_seq config n_fft
    let time_signal := npIfft fg.1 n_fft
    .ok (time_signal,
      { subframe_index := subframe_index
        slot_index := slot_index
        root_index := root_index
        alpha := config.alpha
        m_sc := m_sc
        comb := config.transmission_comb
        n_fft := n_fft
        k0 := fg.2
        hopping := hopping })

/-- `np.linalg.norm`: the Euclidean norm of a complex signal. -/
noncomputable def signal_norm (l : List ℂ) : ℝ :=
  Real.sqrt (∑ i in Finset.range l.length, Complex.abs (l.getD i 0) ^ 2)

/-- `np.correlate(a, b, mode="valid")[0]` for equal-length signals:
the zero-lag inner product `∑ a[n] * conj(b[n])`. -/
noncomputable def zero_lag_corr (a b : List ℂ) : ℂ :=
  ∑ i in Finset.range a.length, a.getD i 0 * (starRingEnd ℂ) (b.getD i 0)

open Classical in
/-- `normalized_cross_correlation` from `lte_srs/sequences.py`. -/
noncomputable def normalized_cross_correlation (a b : List ℂ) : Except String ℝ :=
  if a.length ≠ b.length then .error "Signals must be the same length for correlation"
  else
    let norm_a := signal_norm a
    let norm_b := signal_norm b
    if norm_a = 0 ∨ norm_b = 0 then .ok 0
    else .ok (Complex.abs (zero_lag_corr a b) / (norm_a * norm_b))

open Classical in
/-- The number of non-zero bins among the first `n` cells of a grid. -/
noncomputable def nonzeroBins (g : Nat → ℂ) (n : Nat) : Nat :=
  ((Finset.range n).filter fun k => g k ≠ 0).card

/-! ### Lemmas: the imperative `generate_prs` computes the Gold recurrences -/

lemma foldl_update_range (g : Nat → Nat) :
    ∀ (k : Nat) (f : Nat → Nat) (i : Nat),
      ((List.range k).foldl (fun a n => Function.update a n (g n)) f) i
        = if i < k then g i else f i := by
  intro k
  induction k with
  | zero => intro f i; simp
  | succ k ih =>
    intro f i
    rw [List.range_succ, List.foldl_append, List.foldl_cons, List.foldl_nil]
    by_cases hik : i = k
    · subst hik
      rw [Function.update_same, if_pos (by omega)]
    · rw [Function.update_noteq hik, ih f i]
      by_cases h : i < k
      · rw [if_pos h, if_pos (by omega)]
      · rw [if_neg h, if_neg (by omega)]

lemma x2init_apply (s i : Nat) : x2init s i = if i < 31 then (s >>> i) &&& 1 else 0 :=
  foldl_update_range (fun n => (s >>> n) &&& 1) 31 (fun _ => 0) i

lemma x1arr_inv (L : Nat) :
    ∀ m, m ≤ L + 30 →
      (∀ i, i ≤ m → x1arr L m i = x1spec i) ∧
      (∀ i, m < i → i < L + 31 → x1arr L m i = 0) := by
  intro m
  induction m with
  | zero =>
    intro _
    constructor
    · intro i hi
      have : i = 0 := by omega
      subst this
      simp [x1arr, x1spec]
    · intro i h0 _
      simp only [x1arr]
      rw [Function.update_noteq (by omega : i ≠ 0)]
  | succ m ih =>
    intro hm
    have IH := ih (by omega)
    have h3 : (m + 1 + (L + 31) - 3) % (L + 31)
        = if 3 ≤ m + 1 then m + 1 - 3 else m + 1 + L + 28 := by
      by_cases h : 3 ≤ m + 1
      · rw [if_pos h]
        have e : m + 1 + (L + 31) - 3 = (m + 1 - 3) + (L + 31) := by omega
        rw [e, Nat.add_mod_right, Nat.mod_eq_of_lt (by omega)]
      · rw [if_neg h, Nat.mod_eq_of_lt (by omega)]
        omega
    have h31 : (m + 1 + (L + 31) - 31) % (L + 31)
        = if 31 ≤ m + 1 then m + 1 - 31 else m + 1 + L := by
      by_cases h : 31 ≤ m + 1
      · rw [if_pos h]
        have e : m + 1 + (L + 31) - 31 = (m + 1 - 31) + (L + 31) := by omega
        rw [e, Nat.add_mod_right, Nat.mod_eq_of_lt (by omega)]
      · rw [if_neg h, Nat.mod_eq_of_lt (by omega)]
        omega
    have va3 : x1arr L m ((m + 1 + (L + 31) - 3) % (L + 31))
        = if 3 ≤ m + 1 then x1spec (m + 1 - 3) else 0 := by
      rw [h3]
      by_cases h : 3 ≤ m + 1
      · rw [if_pos h, if_pos h]
        exact IH.1 (m + 1 - 3) (by omega)
      · rw [if_neg h, if_neg h]
        exact IH.2 (m + 1 + L + 28) (by omega) (by omega)
    have va31 : x1arr L m ((m + 1 + (L + 31) - 31) % (L + 31))
        = if 31 ≤ m + 1 then x1spec (m + 1 - 31) else 0 := by
      rw [h31]
      by_cases h : 31 ≤ m + 1
      · rw [if_pos h, if_pos h]
        exact IH.1 (m + 1 - 31) (by omega)
      · rw [if_neg h, if_neg h]
        exact IH.2 (m + 1 + L) (by omega) (by omega)
    have hval : (x1arr L m ((m + 1 + (L + 31) - 3) % (L + 31))
        + x1arr L m ((m + 1 + (L + 31) - 31) % (L + 31))) % 2 = x1spec (m + 1) := by
      rw [va3, va31]
      by_cases h : 3 ≤ m + 1
      · obtain ⟨k, hk⟩ : ∃ k, m + 1 = k + 3 := ⟨m + 1 - 3, by omega⟩
        rw [hk]
        simp only [x1spec]
        rw [if_pos (by omega : 3 ≤ k + 3), (by omega : k + 3 - 3 = k)]
        by_cases h31' : 31 ≤ k + 3
        · rw [if_pos h31', if_neg (by omega : ¬ k + 3 < 31)]
        · rw [if_neg h31', if_pos (by omega : k + 3 < 31)]
      · have : m + 1 = 1 ∨ m + 1 = 2 := by omega
        rcases this with h1 | h1 <;> rw [h1] <;> simp [x1spec]
    constructor
    · intro i hi
      by_cases hi' : i = m + 1
      · subst hi'
        simp only [x1arr]
        rw [Function.update_same]
        exact hval
      · simp only [x1arr]
        rw [Function.update_noteq hi']
        exact IH.1 i (by omega)
    · intro i h1 h2
      simp only [x1arr]
      rw [Function.update_noteq (by omega : i ≠ m + 1)]
      exact IH.2 i (by omega) h2

lemma x2arr_inv (s : Nat) : ∀ m i, i < 31 + m → x2arr s m i = x2spec s i := by
  intro m
  induction m with
  | zero =>
    intro i hi
    simp only [x2arr]
    rw [x2init_apply, if_pos hi, x2spec, dif_pos hi]
  | succ m ih =>
    intro i hi
    simp only [x2arr]
    by_cases h : i = 31 + m
    · subst h
      rw [Function.update_same, ih (31 + m - 3) (by omega), ih (31 + m - 2) (by omega),
        ih (31 + m - 1) (by omega), ih (31 + m - 31) (by omega)]
      conv_rhs => rw [x2spec]
      rw [dif_neg (by omega : ¬ 31 + m < 31)]
    · rw [Function.update_noteq h]
      exact ih i (by omega)

lemma generate_prs_length (s L : Nat) : (generate_prs s L).length = L := by
  simp [generate_prs]

lemma generate_prs_eq_map (s L : Nat) :
    generate_prs s L
      = (List.range L).map fun n => (x1spec (n + 31) + x2spec s (n + 31)) % 2 := by
  unfold generate_prs
  apply List.map_congr_left
  intro n hn
  rw [List.mem_range] at hn
  rw [(x1arr_inv L (L + 30) (le_refl _)).1 (n + 31) (by omega),
    x2arr_inv s L (n + 31) (by omega)]

lemma generate_prs_getD (s L n : Nat) (h : n < L) :
    (generate_prs s L).getD n 0 = (x1spec (n + 31) + x2spec s (n + 31)) % 2 := by
  rw [generate_prs_eq_map]
  rw [List.getD_eq_getElem?_getD, List.getElem?_map, List.getElem?_range h]
  rfl

/-- C3: for every seed and non-negative length `L`, `generate_prs` returns a
length-`L` sequence whose element `n` is `(x1[n+31] + x2[n+31]) mod 2` for the
Gold recurrences `x1spec` / `x2spec` (seed bits least-significant first,
negative-index terms zero). -/
theorem generate_prs_gold_spec (s L : Nat) :
    (generate_prs s L).length = L ∧
    ∀ n, n < L →
      (generate_prs s L).getD n 0 = (x1spec (n + 31) + x2spec s (n + 31)) % 2 :=
  ⟨generate_prs_length s L, fun n hn => generate_prs_getD s L n hn⟩

theorem generate_prs_gold_spec_witness :
    0 < 2 ∧ (generate_prs 12345 2).getD 0 0 = (x1spec 31 + x2spec 12345 31) % 2 :=
  ⟨by decide, (generate_prs_gold_spec 12345 2).2 0 (by decide)⟩

/-- C7: `generate_prs` returns only 0/1 values, is deterministic for a fixed
`(seed, L)`, and its first `L' < L` elements equal `generate_prs seed L'`. -/
theorem generate_prs_bits_det_take (s L Lp : Nat) (h : Lp < L) :
    (∀ v ∈ generate_prs s L, v = 0 ∨ v = 1) ∧
    generate_prs s L = generate_prs s L ∧
    (generate_prs s L).take Lp = generate_prs s Lp := by
  refine ⟨?_, rfl, ?_⟩
  · intro v hv
    unfold generate_prs at hv
    simp only [List.mem_map, List.mem_range] at hv
    obtain ⟨n, _, rfl⟩ := hv
    omega
  · rw [generate_prs_eq_map s L, generate_prs_eq_map s Lp, ← List.map_take, List.take_range,
      Nat.min_eq_left (le_of_lt h)]

theorem generate_prs_bits_det_take_witness :
    1 < 3 ∧ (generate_prs 7 3).take 1 = generate_prs 7 1 :=
  ⟨by decide, (generate_prs_bits_det_take 7 3 1 (by decide)).2.2⟩

/-! ### Hopping and configuration claims -/

/-- C2: `group_and_sequence_hopping` returns `f_ss = cell_id mod 30`;
`f_gh = 0` without group hopping and otherwise the claimed 8-bit PRS word
mod 30 (PRS seeded with `((slot/2 + 1)(cell_id + 1)·2^9 + cell_id) mod 2^31`,
length `8(slot+1)`, bits taken at offset `8·slot`); `group_number =
(f_ss + f_gh) mod 30`; and `sequence_number` is `group_number`, shifted by
`f_gh mod 30` when sequence hopping is enabled. -/
theorem group_and_sequence_hopping_spec (cfg : SRSConfig) (slot : Nat) (hv : cfg.Valid) :
    (group_and_sequence_hopping cfg slot).f_ss = cfg.cell_id % 30 ∧
    (group_and_sequence_hopping cfg slot).f_gh =
      (if cfg.group_hopping_enabled then
        (∑ i in Finset.range 8,
          ((generate_prs (((slot / 2 + 1) * (cfg.cell_id + 1) * 2 ^ 9 + cfg.cell_id) % 2 ^ 31)
              (8 * (slot + 1))).getD (8 * slot + i) 0) * 2 ^ i) % 30
      else 0) ∧
    (group_and_sequence_hopping cfg slot).group_number =
      ((group_and_sequence_hopping cfg slot).f_ss
        + (group_and_sequence_hopping cfg slot).f_gh) % 30 ∧
    (group_and_sequence_hopping cfg slot).sequence_number =
      (if cfg.sequence_hopping_enabled then
        ((group_and_sequence_hopping cfg slot).group_number
          + (group_and_sequence_hopping cfg slot).f_gh % 30) % 30
      else (group_and_sequence_hopping cfg slot).group_number) := by
  refine ⟨rfl, ?_, rfl, ?_⟩
  · by_cases hg : cfg.group_hopping_enabled <;>
      simp [group_and_sequence_hopping, hg, Nat.shiftLeft_eq]
  · by_cases hs : cfg.sequence_hopping_enabled <;>
      simp [group_and_sequence_hopping, hs]

theorem group_and_sequence_hopping_spec_witness :
    (SRSConfig.mk 5 1 2 0 true true 1 0 1 25 none).Valid ∧
    (group_and_sequence_hopping (SRSConfig.mk 5 1 2 0 true true 1 0 1 25 none) 3).f_ss
      = (SRSConfig.mk 5 1 2 0 true true 1 0 1 25 none).cell_id % 30 :=
  ⟨by decide, (group_and_sequence_hopping_spec (SRSConfig.mk 5 1 2 0 true true 1 0 1 25 none) 3
    (by decide)).1⟩

/-- C9: with group hopping disabled, `f_gh = 0`, `group_number =
sequence_number = cell_id mod 30`, and toggling `sequence_hopping_enabled`
never changes the returned `HoppingState` (the shift is `f_gh mod 30 = 0`). -/
theorem group_hopping_disabled_inert (cfg : SRSConfig) (slot : Nat)
    (h : cfg.group_hopping_enabled = false) :
    (group_and_sequence_hopping cfg slot).f_gh = 0 ∧
    (group_and_sequence_hopping cfg slot).group_number = cfg.cell_id % 30 ∧
    (group_and_sequence_hopping cfg slot).sequence_number = cfg.cell_id % 30 ∧
    ∀ b : Bool,
      group_and_sequence_hopping { cfg with sequence_hopping_enabled := b } slot
        = group_and_sequence_hopping cfg slot := by
  refine ⟨?_, ?_, ?_, ?_⟩
  · simp [group_and_sequence_hopping, h]
  · simp [group_and_sequence_hopping, h]
  · by_cases hs : cfg.sequence_hopping_enabled <;>
      simp [group_and_sequence_hopping, h, hs]
  · intro b
    cases b <;> by_cases hs : cfg.sequence_hopping_enabled <;>
      simp [group_and_sequence_hopping, h, hs]

theorem group_hopping_disabled_inert_witness :
    (SRSConfig.mk 77 0 1 0 false true 0 0 0 10 none).group_hopping_enabled = false ∧
    (group_and_sequence_hopping (SRSConfig.mk 77 0 1 0 false true 0 0 0 10 none) 5).sequence_number
      = (SRSConfig.mk 77 0 1 0 false true 0 0 0 10 none).cell_id % 30 :=
  ⟨by decide, (group_hopping_disabled_inert (SRSConfig.mk 77 0 1 0 false true 0 0 0 10 none) 5
    (by decide)).2.2.1⟩

/-- C6: `bandwidth_in_subcarriers` returns
`min ((srs_bandwidth + 1) · 12 · 2^max(bandwidth_config, 0), n_ul_rb · 12)`. -/
theorem bandwidth_in_subcarriers_spec (cfg : SRSConfig) (hv : cfg.Valid) :
    cfg.bandwidth_in_subcarriers
      = min ((cfg.srs_bandwidth + 1) * 12 * 2 ^ max cfg.bandwidth_config 0)
          (cfg.n_ul_rb * 12) := rfl

theorem bandwidth_in_subcarriers_spec_witness :
    (SRSConfig.mk 0 2 2 0 false false 0 0 0 50 none).Valid ∧
    (SRSConfig.mk 0 2 2 0 false false 0 0 0 50 none).bandwidth_in_subcarriers
      = min ((0 + 1) * 12 * 2 ^ max 2 0) (50 * 12) ∧
    (SRSConfig.mk 0 2 2 0 false false 0 0 0 50 none).bandwidth_in_subcarriers = 48 :=
  ⟨by decide, bandwidth_in_subcarriers_spec _ (by decide), by decide⟩

/-- C1: `generate_srs` fails exactly when the periodicity is 0 or
`subframe mod periodicity ≠ 0`, in which case the error is the source's
message, which contains both the requested subframe index and the configured
periodicity; otherwise it succeeds. -/
theorem generate_srs_active_iff (cfg : SRSConfig) (sf n_fft : Nat)
    (hv : cfg.Valid) (hn : 0 < n_fft) :
    ((generate_srs cfg sf n_fft).isOk = true ↔
      (cfg.subframe_config ≠ 0 ∧ sf % cfg.subframe_config = 0)) ∧
    ((cfg.subframe_config = 0 ∨ sf % cfg.subframe_config ≠ 0) →
      generate_srs cfg sf n_fft = .error ("Subframe " ++ toString sf
        ++ " is not active for this UE (T_srs=" ++ toString cfg.subframe_config ++ ").")) ∧
    (toString sf).data <:+: ("Subframe " ++ toString sf
      ++ " is not active for this UE (T_srs=" ++ toString cfg.subframe_config ++ ").").data ∧
    (toString cfg.subframe_config).data <:+: ("Subframe " ++ toString sf
      ++ " is not active for this UE (T_srs=" ++ toString cfg.subframe_config ++ ").").data := by
  have hact : cfg.is_active_subframe sf = true ↔
      (cfg.subframe_config ≠ 0 ∧ sf % cfg.subframe_config = 0) := by
    unfold SRSConfig.is_active_subframe
    by_cases h : cfg.subframe_config = 0 <;> simp [h]
  refine ⟨?_, ?_, ?_, ?_⟩
  · by_cases ha : cfg.is_active_subframe sf <;>
      simp [generate_srs, ha, ← hact, Except.isOk, Except.toBool]
  · intro hmiss
    have ha : cfg.is_active_subframe sf = false := by
      rcases Bool.eq_false_or_eq_true (cfg.is_active_subframe sf) with h | h
      · rcases hact.1 h with ⟨h1, h2⟩
        rcases hmiss with h3 | h3 <;> [exact absurd h3 h1; exact absurd h2 h3]
      · exact h
    simp [generate_srs, ha]
  · exact ⟨"Subframe ".data,
      (" is not active for this UE (T_srs=" ++ toString cfg.subframe_config ++ ").").data,
      by simp [String.data_append]⟩
  · exact ⟨("Subframe " ++ toString sf ++ " is not active for this UE (T_srs=").data,
      (").").data, by simp [String.data_append]⟩

theorem generate_srs_active_iff_witness :
    ((SRSConfig.mk 1 0 2 0 false false 0 0 0 50 none).subframe_config = 0 ∨
      3 % (SRSConfig.mk 1 0 2 0 false false 0 0 0 50 none).subframe_config ≠ 0) ∧
    generate_srs (SRSConfig.mk 1 0 2 0 false false 0 0 0 50 none) 3 2048
      = .error ("Subframe " ++ toString 3 ++ " is not active for this UE (T_srs="
        ++ toString (SRSConfig.mk 1 0 2 0 false false 0 0 0 50 none).subframe_config ++ ").") :=
  ⟨by decide,
    (generate_srs_active_iff (SRSConfig.mk 1 0 2 0 false false 0 0 0 50 none) 3 2048
      (by decide) (by decide)).2.1 (by decide)⟩

/-! ### Lemmas: error behaviour of `generate_prs` on arbitrary integer lengths -/

lemma except_bind_ok {α β : Type} (a : α) (f : α → Except String β) :
    (Except.ok a >>= f) = f a := rfl

lemma except_bind_err {α β : Type} (e : String) (f : α → Except String β) :
    ((Except.error e : Except String α) >>= f) = .error e := rfl

lemma npZerosE_ok (n : Int) (h : 0 ≤ n) : npZerosE n = .ok ⟨n.toNat, fun _ => 0⟩ := by
  unfold npZerosE
  rw [if_neg (by omega)]

lemma npZerosE_err (n : Int) (h : n < 0) :
    npZerosE n = .error "ValueError: negative dimensions are not allowed" := by
  unfold npZerosE
  rw [if_pos h]

lemma getE_ok (a : NpIntArr) (i : Int) (h1 : -(a.size : Int) ≤ i) (h2 : i < (a.size : Int)) :
    ∃ v, a.getE i = .ok v := by
  unfold NpIntArr.getE pyIdx
  by_cases h0 : 0 ≤ i ∧ i < (a.size : Int)
  · rw [if_pos h0]
    exact ⟨a.data i.toNat, rfl⟩
  · rw [if_neg h0, if_pos ⟨h1, by omega⟩]
    exact ⟨a.data (i + a.size).toNat, rfl⟩

lemma getE_err (a : NpIntArr) (i : Int) (h : i < -(a.size : Int) ∨ (a.size : Int) ≤ i) :
    a.getE i = .error "IndexError: index out of bounds" := by
  unfold NpIntArr.getE pyIdx
  rw [if_neg (by omega), if_neg (by omega)]
  rfl

lemma setE_ok (a : NpIntArr) (i : Int) (v : Nat) (h1 : 0 ≤ i) (h2 : i < (a.size : Int)) :
    a.setE i v = .ok ⟨a.size, Function.update a.data i.toNat v⟩ := by
  unfold NpIntArr.setE pyIdx
  rw [if_pos ⟨h1, h2⟩]
  rfl

lemma setE_err (a : NpIntArr) (i : Int) (v : Nat)
    (h : i < -(a.size : Int) ∨ (a.size : Int) ≤ i) :
    a.setE i v = .error "IndexError: index out of bounds" := by
  unfold NpIntArr.setE pyIdx
  rw [if_neg (by omega), if_neg (by omega)]
  rfl

lemma mem_pyRange {a b n : Int} (h : a ≤ b) : n ∈ pyRange a b ↔ a ≤ n ∧ n < b := by
  unfold pyRange
  simp only [List.mem_map, List.mem_range]
  constructor
  · rintro ⟨k, hk, rfl⟩
    omega
  · rintro ⟨h1, h2⟩
    exact ⟨(n - a).toNat, by omega, by omega⟩

lemma pyRange_cons {a b : Int} (h : a < b) : pyRange a b = a :: pyRange (a + 1) b := by
  unfold pyRange
  have hk : (b - a).toNat = (b - (a + 1)).toNat + 1 := by omega
  rw [hk, List.range_succ_eq_map]
  simp only [List.map_cons, List.map_map, Nat.cast_zero, add_zero]
  congr 1
  apply List.map_congr_left
  intro k _
  simp only [Function.comp_apply, Nat.cast_succ]
  ring

lemma foldlM_ok {f : NpIntArr → Int → Except String NpIntArr} (N : Nat) :
    ∀ (l : List Int) (a : NpIntArr), a.size = N →
      (∀ (b : NpIntArr) (n : Int), b.size = N → n ∈ l → ∃ b', f b n = .ok b' ∧ b'.size = N) →
      ∃ a', l.foldlM f a = .ok a' ∧ a'.size = N := by
  intro l
  induction l with
  | nil =>
    intro a h _
    exact ⟨a, rfl, h⟩
  | cons x xs ih =>
    intro a h hstep
    obtain ⟨b, hb, hbs⟩ := hstep a x h (List.mem_cons_self x xs)
    obtain ⟨a', ha', has⟩ := ih b hbs fun c n hc hn => hstep c n hc (List.mem_cons_of_mem x hn)
    refine ⟨a', ?_, has⟩
    rw [List.foldlM_cons, hb, except_bind_ok, ha']

lemma foldlM_setE_err (v : Int → Nat) :
    ∀ (l : List Int) (a : NpIntArr),
      (∀ n ∈ l, 0 ≤ n) → (∃ n ∈ l, (a.size : Int) ≤ n) →
      l.foldlM (fun b n => b.setE n (v n)) a = .error "IndexError: index out of bounds" := by
  intro l
  induction l with
  | nil =>
    rintro a _ ⟨n, hn, _⟩
    exact absurd hn (List.not_mem_nil n)
  | cons x xs ih =>
    rintro a hpos ⟨n, hn, hbig⟩
    by_cases hx : x < (a.size : Int)
    · rw [List.foldlM_cons, setE_ok a x (v x) (hpos x (List.mem_cons_self x xs)) hx,
        except_bind_ok]
      refine ih _ (fun m hm => hpos m (List.mem_cons_of_mem x hm)) ⟨n, ?_, hbig⟩
      rcases List.mem_cons.1 hn with rfl | h
      · exact absurd hbig (by omega)
      · exact h
    · rw [List.foldlM_cons, setE_err a x (v x) (Or.inr (by omega)), except_bind_err]

lemma mapM_ok {f : Nat → Except String Nat} :
    ∀ (l : List Nat), (∀ n ∈ l, ∃ v, f n = .ok v) → ∃ ys, l.mapM f = .ok ys := by
  intro l
  induction l with
  | nil => exact fun _ => ⟨[], rfl⟩
  | cons x xs ih =>
    intro h
    obtain ⟨v, hv⟩ := h x (List.mem_cons_self x xs)
    obtain ⟨ys, hys⟩ := ih fun n hn => h n (List.mem_cons_of_mem x hn)
    refine ⟨v :: ys, ?_⟩
    rw [List.mapM_cons, hv, except_bind_ok, hys, except_bind_ok]
    rfl

lemma loop1_step_ok (N : Nat) (hmin : 30 ≤ N) (b : NpIntArr) (n : Int)
    (hb : b.size = N) (h1 : 1 ≤ n) (h2 : n < (N : Int)) :
    ∃ b', (do
        let v3 ← b.getE (n - 3)
        let v31 ← b.getE (n - 31)
        b.setE n ((v3 + v31) % 2)) = .ok b' ∧ b'.size = N := by
  have hbi : (b.size : Int) = (N : Int) := by rw [hb]
  obtain ⟨v3, h3⟩ := getE_ok b (n - 3) (by omega) (by omega)
  obtain ⟨v31, h31⟩ := getE_ok b (n - 31) (by omega) (by omega)
  refine ⟨⟨b.size, Function.update b.data n.toNat ((v3 + v31) % 2)⟩, ?_, hb⟩
  simp only [h3, except_bind_ok, h31]
  rw [setE_ok b n ((v3 + v31) % 2) (by omega) (by omega)]

lemma loop2_step_ok (N : Nat) (b : NpIntArr) (n : Int)
    (hb : b.size = N) (h1 : 31 ≤ n) (h2 : n < (N : Int)) :
    ∃ b', (do
        let v3 ← b.getE (n - 3)
        let v2 ← b.getE (n - 2)
        let v1 ← b.getE (n - 1)
        let v31 ← b.getE (n - 31)
        b.setE n ((v3 + v2 + v1 + v31) % 2)) = .ok b' ∧ b'.size = N := by
  have hbi : (b.size : Int) = (N : Int) := by rw [hb]
  obtain ⟨v3, h3⟩ := getE_ok b (n - 3) (by omega) (by omega)
  obtain ⟨v2, hv2⟩ := getE_ok b (n - 2) (by omega) (by omega)
  obtain ⟨v1, hv1⟩ := getE_ok b (n - 1) (by omega) (by omega)
  obtain ⟨v31, h31⟩ := getE_ok b (n - 31) (by omega) (by omega)
  refine ⟨⟨b.size, Function.update b.data n.toNat ((v3 + v2 + v1 + v31) % 2)⟩, ?_, hb⟩
  simp only [h3, except_bind_ok, hv2, hv1, h31]
  rw [setE_ok b n ((v3 + v2 + v1 + v31) % 2) (by omega) (by omega)]

lemma generate_prs_impl_ok (s : Nat) (L : Int) (hL : 0 ≤ L) :
    ∃ out, generate_prs_impl s L = .ok out := by
  have hN : (((L + 31).toNat : Nat) : Int) = L + 31 := by omega
  have hNge : 31 ≤ (L + 31).toNat := by omega
  have hzero : npZerosE (L + 31) = .ok ⟨(L + 31).toNat, fun _ => 0⟩ := npZerosE_ok _ (by omega)
  have hset0 : (⟨(L + 31).toNat, fun _ => 0⟩ : NpIntArr).setE 0 1
      = .ok ⟨(L + 31).toNat, Function.update (fun _ => 0) 0 1⟩ := by
    rw [setE_ok _ _ _ (le_refl 0) (by show (0 : Int) < ((L + 31).toNat : Int); omega)]
    rfl
  obtain ⟨a1, ha1, ha1s⟩ := foldlM_ok (f := fun b n => do
        let v3 ← b.getE (n - 3)
        let v31 ← b.getE (n - 31)
        b.setE n ((v3 + v31) % 2)) (L + 31).toNat (pyRange 1 (L + 31))
      (⟨(L + 31).toNat, Function.update (fun _ => 0) 0 1⟩ : NpIntArr) rfl
      (fun b n hb hn => by
        rw [mem_pyRange (by omega)] at hn
        exact loop1_step_ok (L + 31).toNat (by omega) b n hb hn.1 (by omega))
  obtain ⟨a2, ha2, ha2s⟩ := foldlM_ok (f := fun b n => b.setE n ((s >>> n.toNat) &&& 1))
      (L + 31).toNat (pyRange 0 31)
      (⟨(L + 31).toNat, fun _ => 0⟩ : NpIntArr) rfl
      (fun b n hb hn => by
        rw [mem_pyRange (by omega)] at hn
        have hbi : (b.size : Int) = ((L + 31).toNat : Int) := by rw [hb]
        exact ⟨⟨b.size, Function.update b.data n.toNat ((s >>> n.toNat) &&& 1)⟩,
          setE_ok b n _ (by omega) (by omega), hb⟩)
  obtain ⟨a3, ha3, ha3s⟩ := foldlM_ok (f := fun b n => do
        let v3 ← b.getE (n - 3)
        let v2 ← b.getE (n - 2)
        let v1 ← b.getE (n - 1)
        let v31 ← b.getE (n - 31)
        b.setE n ((v3 + v2 + v1 + v31) % 2)) (L + 31).toNat (pyRange 31 (L + 31)) a2 ha2s
      (fun b n hb hn => by
        rw [mem_pyRange (by omega)] at hn
        exact loop2_step_ok (L + 31).toNat b n hb hn.1 (by omega))
  have houtlen : min (max L 0).toNat (a1.size - 31) = L.toNat := by
    rw [ha1s]; omega
  obtain ⟨ys, hys⟩ := mapM_ok (f := fun n => do
      let b1 ← a1.getE ((n : Int) + 31)
      let b2 ← a3.getE ((n : Int) + 31)
      pure ((b1 + b2) % 2)) (List.range L.toNat)
      (fun n hn => by
        rw [List.mem_range] at hn
        have h1i : (a1.size : Int) = ((L + 31).toNat : Int) := by rw [ha1s]
        have h3i : (a3.size : Int) = ((L + 31).toNat : Int) := by rw [ha3s]
        obtain ⟨b1, hb1⟩ := getE_ok a1 ((n : Int) + 31) (by omega) (by omega)
        obtain ⟨b2, hb2⟩ := getE_ok a3 ((n : Int) + 31) (by omega) (by omega)
        refine ⟨(b1 + b2) % 2, ?_⟩
        simp only [hb1, except_bind_ok, hb2]
        rfl)
  refine ⟨ys, ?_⟩
  unfold generate_prs_impl
  rw [hzero]
  simp only [except_bind_ok]
  rw [hset0]
  simp only [except_bind_ok]
  simp only [ha1, except_bind_ok, ha2, ha3]
  rw [houtlen, hys]

lemma generate_prs_impl_err (s : Nat) (L : Int) (hL : L < 0) :
    ∃ e, generate_prs_impl s L = .error e := by
  by_cases hA : L + 31 < 0
  · refine ⟨"ValueError: negative dimensions are not allowed", ?_⟩
    unfold generate_prs_impl
    rw [npZerosE_err _ hA, except_bind_err]
  · push_neg at hA
    have hN : (((L + 31).toNat : Nat) : Int) = L + 31 := by omega
    have hNle : (L + 31).toNat ≤ 30 := by omega
    by_cases hB : (L + 31).toNat = 0
    · refine ⟨"IndexError: index out of bounds", ?_⟩
      unfold generate_prs_impl
      rw [npZerosE_ok _ (by omega)]
      simp only [except_bind_ok]
      rw [setE_err _ _ _ (Or.inr (show ((L + 31).toNat : Int) ≤ 0 by omega)), except_bind_err]
    · have hset0 : (⟨(L + 31).toNat, fun _ => 0⟩ : NpIntArr).setE 0 1
          = .ok ⟨(L + 31).toNat, Function.update (fun _ => 0) 0 1⟩ := by
        rw [setE_ok _ _ _ (le_refl 0) (by show (0 : Int) < ((L + 31).toNat : Int); omega)]
        rfl
      by_cases hC : (L + 31).toNat = 1
      · have hempty : pyRange 1 (L + 31) = [] := by
          unfold pyRange
          have he : (L + 31 - 1).toNat = 0 := by omega
          rw [he]
          rfl
        refine ⟨"IndexError: index out of bounds", ?_⟩
        unfold generate_prs_impl
        rw [npZerosE_ok _ (by omega)]
        simp only [except_bind_ok]
        rw [hset0]
        simp only [except_bind_ok, hempty, List.foldlM_nil, pure_bind]
        rw [foldlM_setE_err _ (pyRange 0 31) _
          (fun n hn => ((mem_pyRange (by omega)).1 hn).1)
          ⟨1, (mem_pyRange (by omega)).2 ⟨by omega, by omega⟩,
            show ((L + 31).toNat : Int) ≤ 1 by omega⟩, except_bind_err]
      · by_cases hD : (L + 31).toNat ≤ 29
        · have hcons : pyRange 1 (L + 31) = 1 :: pyRange 2 (L + 31) := by
            have h2 := pyRange_cons (a := 1) (b := L + 31) (by omega)
            norm_num at h2
            exact h2
          refine ⟨"IndexError: index out of bounds", ?_⟩
          unfold generate_prs_impl
          rw [npZerosE_ok _ (by omega)]
          simp only [except_bind_ok]
          rw [hset0]
          simp only [except_bind_ok, hcons, List.foldlM_cons]
          obtain ⟨v3, h3⟩ := getE_ok
            (⟨(L + 31).toNat, Function.update (fun _ => 0) 0 1⟩ : NpIntArr) ((1 : Int) - 3)
            (show -(((L + 31).toNat : Nat) : Int) ≤ 1 - 3 by omega)
            (show (1 : Int) - 3 < (((L + 31).toNat : Nat) : Int) by omega)
          rw [h3]
          simp only [except_bind_ok]
          rw [getE_err _ ((1 : Int) - 31)
            (Or.inl (show (1 : Int) - 31 < -(((L + 31).toNat : Nat) : Int) by omega))]
          simp only [except_bind_err]
        · have hN30 : (L + 31).toNat = 30 := by omega
          obtain ⟨a1, ha1, ha1s⟩ := foldlM_ok (f := fun b n => do
                let v3 ← b.getE (n - 3)
                let v31 ← b.getE (n - 31)
                b.setE n ((v3 + v31) % 2)) (L + 31).toNat (pyRange 1 (L + 31))
              (⟨(L + 31).toNat, Function.update (fun _ => 0) 0 1⟩ : NpIntArr) rfl
              (fun b n hb hn => by
                rw [mem_pyRange (by omega)] at hn
                exact loop1_step_ok (L + 31).toNat (by omega) b n hb hn.1 (by omega))
          refine ⟨"IndexError: index out of bounds", ?_⟩
          unfold generate_prs_impl
          rw [npZerosE_ok _ (by omega)]
          simp only [except_bind_ok]
          rw [hset0]
          simp only [except_bind_ok, ha1]
          rw [foldlM_setE_err _ (pyRange 0 31) _
            (fun n hn => ((mem_pyRange (by omega)).1 hn).1)
            ⟨30, (mem_pyRange (by omega)).2 ⟨by omega, by omega⟩,
              show ((L + 31).toNat : Int) ≤ 30 by omega⟩, except_bind_err]

/-- C8: `generate_prs` raises an error exactly on negative requested lengths:
for every seed, a negative `length` makes the bounds-checked embedding fail
(inside NumPy: a negative allocation or an out-of-range index), and every
non-negative `length` returns normally. -/
theorem generate_prs_neg_length_only_error (s : Nat) (L : Int) :
    (L < 0 → ∃ e, generate_prs_impl s L = .error e) ∧
    (0 ≤ L → ∃ out, generate_prs_impl s L = .ok out) :=
  ⟨generate_prs_impl_err s L, generate_prs_impl_ok s L⟩

theorem generate_prs_neg_length_only_error_witness :
    ((-1 : Int) < 0 ∧ ∃ e, generate_prs_impl 3 (-1) = .error e) ∧
    ((0 : Int) ≤ 2 ∧ ∃ out, generate_prs_impl 3 2 = .ok out) :=
  ⟨⟨by decide, (generate_prs_neg_length_only_error 3 (-1)).1 (by decide)⟩,
   ⟨by decide, (generate_prs_neg_length_only_error 3 2).2 (by decide)⟩⟩

/-! ### Lemmas: the comb-placement grid -/

lemma gridAux_hit (k0 : Int) (seq : List ℂ) (n : Nat) :
    ∀ (M m : Nat), m < M → 0 ≤ k0 + (m : Int) * 2 → k0 + (m : Int) * 2 < (n : Int) →
      gridAux k0 2 seq n M ((k0 + (m : Int) * 2).toNat) = seq.getD m 0 := by
  intro M
  induction M with
  | zero =>
    intro m hm _ _
    exact absurd hm (Nat.not_lt_zero m)
  | succ M ih =>
    intro m hm h1 h2
    by_cases hmM : m = M
    · subst hmM
      simp only [gridAux, Nat.cast_ofNat]
      rw [if_pos ⟨h1, h2⟩, Function.update_same]
    · have hm' : m < M := by omega
      simp only [gridAux, Nat.cast_ofNat]
      by_cases hc : 0 ≤ k0 + (M : Int) * 2 ∧ k0 + (M : Int) * 2 < (n : Int)
      · rw [if_pos hc, Function.update_noteq (by omega)]
        exact ih m hm' h1 h2
      · rw [if_neg hc]
        exact ih m hm' h1 h2

lemma gridAux_miss (k0 : Int) (seq : List ℂ) (n : Nat) :
    ∀ (M j : Nat), (∀ (m : Nat), m < M →
        ¬(0 ≤ k0 + (m : Int) * 2 ∧ k0 + (m : Int) * 2 < (n : Int) ∧
          (k0 + (m : Int) * 2).toNat = j)) →
      gridAux k0 2 seq n M j = 0 := by
  intro M
  induction M with
  | zero =>
    intro j _
    rfl
  | succ M ih =>
    intro j hj
    simp only [gridAux, Nat.cast_ofNat]
    by_cases hc : 0 ≤ k0 + (M : Int) * 2 ∧ k0 + (M : Int) * 2 < (n : Int)
    · rw [if_pos hc, Function.update_noteq ?hne]
      · exact ih j fun m hm => hj m (by omega)
      case hne =>
        intro hEq
        exact hj M (by omega) ⟨hc.1, hc.2, hEq.symm⟩
    · rw [if_neg hc]
      exact ih j fun m hm => hj m (by omega)

lemma nonzeroBins_gridAux_le (k0 : Int) (seq : List ℂ) (n M : Nat) :
    nonzeroBins (gridAux k0 2 seq n M) n ≤ M := by
  classical
  unfold nonzeroBins
  have hsub : ((Finset.range n).filter fun k => gridAux k0 2 seq n M k ≠ 0)
      ⊆ (Finset.range M).image fun (m : Nat) => (k0 + (m : Int) * 2).toNat := by
    intro j hj
    rw [Finset.mem_filter] at hj
    by_contra hns
    refine hj.2 (gridAux_miss k0 seq n M j fun m hm hcond => hns ?_)
    rw [Finset.mem_image]
    exact ⟨m, Finset.mem_range.2 hm, hcond.2.2⟩
  calc ((Finset.range n).filter fun k => gridAux k0 2 seq n M k ≠ 0).card
      ≤ ((Finset.range M).image fun (m : Nat) => (k0 + (m : Int) * 2).toNat).card :=
        Finset.card_le_card hsub
    _ ≤ (Finset.range M).card := Finset.card_image_le
    _ = M := Finset.card_range M

lemma nonzeroBins_gridAux_eq (k0 : Int) (seq : List ℂ) (n : Nat)
    (hnz : ∀ (m : Nat), m < seq.length → seq.getD m 0 ≠ 0) :
    nonzeroBins (gridAux k0 2 seq n seq.length) n
      = ((Finset.range seq.length).filter
          fun (m : Nat) => 0 ≤ k0 + (m : Int) * 2 ∧ k0 + (m : Int) * 2 < (n : Int)).card := by
  classical
  unfold nonzeroBins
  symm
  refine Finset.card_bij (fun (m : Nat) _ => (k0 + (m : Int) * 2).toNat) ?hi ?inj ?surj
  · intro m hm
    rw [Finset.mem_filter, Finset.mem_range] at hm
    rw [Finset.mem_filter, Finset.mem_range]
    constructor
    · show (k0 + (m : Int) * 2).toNat < n
      omega
    · show gridAux k0 2 seq n seq.length ((k0 + (m : Int) * 2).toNat) ≠ 0
      rw [gridAux_hit k0 seq n seq.length m hm.1 hm.2.1 hm.2.2]
      exact hnz m hm.1
  · intro m1 hm1 m2 hm2 hEq
    rw [Finset.mem_filter, Finset.mem_range] at hm1 hm2
    have hEq' : (k0 + (m1 : Int) * 2).toNat = (k0 + (m2 : Int) * 2).toNat := hEq
    omega
  · intro j hj
    rw [Finset.mem_filter, Finset.mem_range] at hj
    by_contra hns
    push_neg at hns
    refine hj.2 (gridAux_miss k0 seq n seq.length j fun m hm hcond => ?_)
    refine hns m ?_ hcond.2.2
    rw [Finset.mem_filter, Finset.mem_range]
    exact ⟨hm, hcond.1, hcond.2.1⟩

lemma rot_mod_cancel (n c i : Nat) (hn : 0 < n) (hi : i < n) :
    ((i + c) % n + (n - c % n)) % n = i := by
  have hd := Nat.mod_add_div c n
  have hltc : c % n < n := Nat.mod_lt c hn
  rw [Nat.mod_add_mod]
  have he : i + c + (n - c % n) = i + n * (c / n) + n := by omega
  rw [he, Nat.add_mod_right, Nat.add_mul_mod_self_left, Nat.mod_eq_of_lt hi]

lemma rot_mod_cancel' (n c j : Nat) (hn : 0 < n) (hj : j < n) :
    ((j + (n - c % n)) % n + c) % n = j := by
  have hd := Nat.mod_add_div c n
  have hltc : c % n < n := Nat.mod_lt c hn
  rw [Nat.mod_add_mod]
  have he : j + (n - c % n) + c = j + n * (c / n) + n := by omega
  rw [he, Nat.add_mod_right, Nat.add_mul_mod_self_left, Nat.mod_eq_of_lt hj]

lemma nonzeroBins_rot (g : Nat → ℂ) (n c : Nat) (hn : 0 < n) :
    nonzeroBins (fun i => g ((i + c) % n)) n = nonzeroBins g n := by
  classical
  unfold nonzeroBins
  refine Finset.card_nbij' (fun i => (i + c) % n) (fun j => (j + (n - c % n)) % n)
    ?_ ?_ ?_ ?_
  · intro a ha
    rw [Finset.mem_filter, Finset.mem_range] at ha ⊢
    exact ⟨Nat.mod_lt _ hn, ha.2⟩
  · intro b hb
    rw [Finset.mem_filter, Finset.mem_range] at hb ⊢
    refine ⟨Nat.mod_lt _ hn, ?_⟩
    show g (((b + (n - c % n)) % n + c) % n) ≠ 0
    rw [rot_mod_cancel' n c b hn hb.1]
    exact hb.2
  · intro a ha
    rw [Finset.mem_filter, Finset.mem_range] at ha
    exact rot_mod_cancel n c a hn ha.1
  · intro b hb
    rw [Finset.mem_filter, Finset.mem_range] at hb
    exact rot_mod_cancel' n c b hn hb.1

/-- C4 (amended): for every complex sequence, valid configuration and positive
transform size, `map_to_frequency_grid` returns
`k0 = n_fft/2 − (M_sc/2)·2 + transmission_comb`; the grid before the
`ifftshift` rotation holds sequence element `m` at bin `k0 + 2m` whenever that
index lies in `[0, n_fft)`, silently skips out-of-range indices, and leaves
every unfilled bin exactly zero.  When additionally every sequence element is
non-zero, the grid has exactly one non-zero bin per in-range index — hence
exactly `M_sc` non-zero bins, or fewer only when some index lands outside
`[0, n_fft)`.  (The unamended count clause fails for sequences containing a
zero element.) -/
theorem map_to_frequency_grid_spec (seq : List ℂ) (cfg : SRSConfig) (n_fft : Nat)
    (hv : cfg.Valid) (hn : 0 < n_fft) :
    (map_to_frequency_grid seq cfg n_fft).2
        = ((n_fft / 2 : Nat) : Int) - ((seq.length / 2 : Nat) : Int) * 2
          + (cfg.transmission_comb : Int) ∧
    (∀ (m : Nat), m < seq.length →
      0 ≤ (map_to_frequency_grid seq cfg n_fft).2 + (m : Int) * 2 →
      (map_to_frequency_grid seq cfg n_fft).2 + (m : Int) * 2 < (n_fft : Int) →
      grid_shifted_of seq cfg n_fft
          (((map_to_frequency_grid seq cfg n_fft).2 + (m : Int) * 2).toNat)
        = seq.getD m 0) ∧
    (∀ (j : Nat), j < n_fft →
      (∀ (m : Nat), m < seq.length →
        (map_to_frequency_grid seq cfg n_fft).2 + (m : Int) * 2 ≠ (j : Int)) →
      grid_shifted_of seq cfg n_fft j = 0) ∧
    ((∀ (m : Nat), m < seq.length → seq.getD m 0 ≠ 0) →
      nonzeroBins (grid_shifted_of seq cfg n_fft) n_fft
          = ((Finset.range seq.length).filter
              fun (m : Nat) => 0 ≤ (map_to_frequency_grid seq cfg n_fft).2 + (m : Int) * 2 ∧
                (map_to_frequency_grid seq cfg n_fft).2 + (m : Int) * 2 < (n_fft : Int)).card ∧
      nonzeroBins (grid_shifted_of seq cfg n_fft) n_fft ≤ seq.length ∧
      ((∀ (m : Nat), m < seq.length →
          0 ≤ (map_to_frequency_grid seq cfg n_fft).2 + (m : Int) * 2 ∧
          (map_to_frequency_grid seq cfg n_fft).2 + (m : Int) * 2 < (n_fft : Int)) →
        nonzeroBins (grid_shifted_of seq cfg n_fft) n_fft = seq.length)) := by
  refine ⟨rfl, ?_, ?_, ?_⟩
  · intro m hm h1 h2
    exact gridAux_hit ((map_to_frequency_grid seq cfg n_fft).2) seq n_fft seq.length m hm h1 h2
  · intro j hj hnotm
    exact gridAux_miss ((map_to_frequency_grid seq cfg n_fft).2) seq n_fft seq.length j
      fun m hm hcond => (hnotm m hm) (by omega)
  · intro hnz
    have he := nonzeroBins_gridAux_eq ((map_to_frequency_grid seq cfg n_fft).2) seq n_fft hnz
    refine ⟨he, nonzeroBins_gridAux_le _ seq n_fft seq.length, ?_⟩
    intro hall
    show nonzeroBins (gridAux ((map_to_frequency_grid seq cfg n_fft).2) 2 seq n_fft seq.length)
        n_fft = seq.length
    rw [nonzeroBins_gridAux_eq ((map_to_frequency_grid seq cfg n_fft).2) seq n_fft hnz,
      Finset.filter_true_of_mem fun m hm => hall m (Finset.mem_range.1 hm),
      Finset.card_range]

theorem map_to_frequency_grid_spec_witness :
    (SRSConfig.mk 0 0 1 0 false false 0 0 0 1 none).Valid ∧ 0 < 4 ∧
    (map_to_frequency_grid [(1 : ℂ)] (SRSConfig.mk 0 0 1 0 false false 0 0 0 1 none) 4).2
      = ((4 / 2 : Nat) : Int) - ((([(1 : ℂ)] : List ℂ).length / 2 : Nat) : Int) * 2
        + (((SRSConfig.mk 0 0 1 0 false false 0 0 0 1 none).transmission_comb : Nat) : Int) :=
  ⟨by decide, by decide,
    (map_to_frequency_grid_spec [(1 : ℂ)] (SRSConfig.mk 0 0 1 0 false false 0 0 0 1 none) 4
      (by decide) (by decide)).1⟩

/-- C4 counterexample: for the length-1 sequence `[0]`, a valid configuration
and `n_fft = 4`, every mapped index lies inside `[0, n_fft)` yet the grid has
0 non-zero bins, not `M_sc = 1` — refuting "exactly M_sc non-zero bins (or
fewer only when some indices land outside [0, n_fft))" as stated. -/
theorem map_to_frequency_grid_count_claim_false :
    ¬(nonzeroBins (grid_shifted_of [(0 : ℂ)] (SRSConfig.mk 0 0 1 0 false false 0 0 0 1 none) 4) 4
        = ([(0 : ℂ)] : List ℂ).length ∨
      ∃ (m : Nat), m < ([(0 : ℂ)] : List ℂ).length ∧
        ((map_to_frequency_grid [(0 : ℂ)] (SRSConfig.mk 0 0 1 0 false false 0 0 0 1 none) 4).2
            + (m : Int) * 2 < 0 ∨
          (4 : Int) ≤ (map_to_frequency_grid [(0 : ℂ)]
              (SRSConfig.mk 0 0 1 0 false false 0 0 0 1 none) 4).2 + (m : Int) * 2)) := by
  classical
  have hk0 : (map_to_frequency_grid [(0 : ℂ)]
      (SRSConfig.mk 0 0 1 0 false false 0 0 0 1 none) 4).2 = 2 := by decide
  have hgrid : ∀ j, grid_shifted_of [(0 : ℂ)]
      (SRSConfig.mk 0 0 1 0 false false 0 0 0 1 none) 4 j = 0 := by
    intro j
    show gridAux ((map_to_frequency_grid [(0 : ℂ)]
        (SRSConfig.mk 0 0 1 0 false false 0 0 0 1 none) 4).2) 2 [(0 : ℂ)] 4 1 j = 0
    rw [hk0]
    simp only [gridAux, Nat.cast_ofNat, Nat.cast_zero]
    norm_num
  have hcount : nonzeroBins (grid_shifted_of [(0 : ℂ)]
      (SRSConfig.mk 0 0 1 0 false false 0 0 0 1 none) 4) 4 = 0 := by
    unfold nonzeroBins
    rw [Finset.card_eq_zero, Finset.filter_eq_empty_iff]
    intro j _
    simp [hgrid j]
  intro h
  rcases h with hc | ⟨m, hm, hout⟩
  · rw [hcount] at hc
    simp at hc
  · rw [List.length_singleton] at hm
    have hm0 : m = 0 := by omega
    subst hm0
    rw [hk0] at hout
    norm_num at hout

/-- C10: `generate_srs` does not require `M_sc` to fit in the Zadoff-Chu
length: when `bandwidth_in_subcarriers` exceeds `zc_length`, generation still
succeeds, the base sequence is truncated to `zc_length` samples, at most
`zc_length` bins of the returned frequency grid are non-zero, yet the
returned `MappingInfo.m_sc` still reports `bandwidth_in_subcarriers`. -/
theorem generate_srs_truncation (cfg : SRSConfig) (sf n_fft : Nat)
    (hv : cfg.Valid) (ha : cfg.is_active_subframe sf = true)
    (hz : cfg.zc_length < cfg.bandwidth_in_subcarriers) (hn : 0 < n_fft) :
    (srs_truncated cfg sf).length = cfg.zc_length ∧
    (srs_sequence cfg sf).length = cfg.zc_length ∧
    generate_srs cfg sf n_fft = .ok
      (npIfft (map_to_frequency_grid (srs_sequence cfg sf) cfg n_fft).1 n_fft,
        ⟨sf, sf * 2, (group_and_sequence_hopping cfg (sf * 2)).sequence_number, cfg.alpha,
          cfg.bandwidth_in_subcarriers, cfg.transmission_comb, n_fft,
          (map_to_frequency_grid (srs_sequence cfg sf) cfg n_fft).2,
          group_and_sequence_hopping cfg (sf * 2)⟩) ∧
    (⟨sf, sf * 2, (group_and_sequence_hopping cfg (sf * 2)).sequence_number, cfg.alpha,
        cfg.bandwidth_in_subcarriers, cfg.transmission_comb, n_fft,
        (map_to_frequency_grid (srs_sequence cfg sf) cfg n_fft).2,
        group_and_sequence_hopping cfg (sf * 2)⟩ : MappingInfo).m_sc
      = cfg.bandwidth_in_subcarriers ∧
    nonzeroBins ((map_to_frequency_grid (srs_sequence cfg sf) cfg n_fft).1) n_fft
      ≤ cfg.zc_length := by
  have hbase : (srs_base_seq cfg sf).length = cfg.zc_length := by
    simp [srs_base_seq, generate_zadoff_chu]
  have h1 : (srs_truncated cfg sf).length = cfg.zc_length := by
    rw [srs_truncated, List.length_take, hbase]
    omega
  have h2 : (srs_sequence cfg sf).length = cfg.zc_length := by
    rw [srs_sequence, apply_cyclic_shift, List.length_mapIdx, h1]
  have hok : generate_srs cfg sf n_fft = .ok
      (npIfft (map_to_frequency_grid (srs_sequence cfg sf) cfg n_fft).1 n_fft,
        ⟨sf, sf * 2, (group_and_sequence_hopping cfg (sf * 2)).sequence_number, cfg.alpha,
          cfg.bandwidth_in_subcarriers, cfg.transmission_comb, n_fft,
          (map_to_frequency_grid (srs_sequence cfg sf) cfg n_fft).2,
          group_and_sequence_hopping cfg (sf * 2)⟩) := by
    unfold generate_srs
    rw [ha]
    rfl
  refine ⟨h1, h2, hok, rfl, ?_⟩
  have hrot : nonzeroBins ((map_to_frequency_grid (srs_sequence cfg sf) cfg n_fft).1) n_fft
      = nonzeroBins (grid_shifted_of (srs_sequence cfg sf) cfg n_fft) n_fft :=
    nonzeroBins_rot (grid_shifted_of (srs_sequence cfg sf) cfg n_fft) n_fft (n_fft / 2) hn
  rw [hrot]
  have hle : nonzeroBins (grid_shifted_of (srs_sequence cfg sf) cfg n_fft) n_fft
      ≤ (srs_sequence cfg sf).length :=
    nonzeroBins_gridAux_le ((map_to_frequency_grid (srs_sequence cfg sf) cfg n_fft).2)
      (srs_sequence cfg sf) n_fft (srs_sequence cfg sf).length
  rw [h2] at hle
  exact hle

theorem generate_srs_truncation_witness :
    (SRSConfig.mk 0 0 1 0 false false 0 0 0 50 (some 5)).Valid ∧
    (SRSConfig.mk 0 0 1 0 false false 0 0 0 50 (some 5)).is_active_subframe 2 = true ∧
    (SRSConfig.mk 0 0 1 0 false false 0 0 0 50 (some 5)).zc_length
      < (SRSConfig.mk 0 0 1 0 false false 0 0 0 50 (some 5)).bandwidth_in_subcarriers ∧
    0 < 64 ∧
    (srs_truncated (SRSConfig.mk 0 0 1 0 false false 0 0 0 50 (some 5)) 2).length
      = (SRSConfig.mk 0 0 1 0 false false 0 0 0 50 (some 5)).zc_length :=
  ⟨by decide, by decide, by decide, by decide,
    (generate_srs_truncation (SRSConfig.mk 0 0 1 0 false false 0 0 0 50 (some 5)) 2 64
      (by decide) (by decide) (by decide) (by decide)).1⟩

/-! ### Lemmas: normalized cross-correlation -/

lemma zero_lag_corr_le (a b : List ℂ) (hlen : a.length = b.length) :
    Complex.abs (zero_lag_corr a b) ≤ signal_norm a * signal_norm b := by
  classical
  let x : EuclideanSpace ℂ (Fin a.length) := fun i => b.getD i 0
  let y : EuclideanSpace ℂ (Fin a.length) := fun i => a.getD i 0
  have hinner : (inner x y : ℂ) = zero_lag_corr a b := by
    rw [PiLp.inner_apply, zero_lag_corr,
      ← Fin.sum_univ_eq_sum_range (fun i => a.getD i 0 * (starRingEnd ℂ) (b.getD i 0)) a.length]
    simp only [RCLike.inner_apply]
    exact Finset.sum_congr rfl fun i _ => mul_comm _ _
  have hnx : ‖x‖ = signal_norm b := by
    rw [EuclideanSpace.norm_eq, signal_norm]
    congr 1
    rw [← hlen, ← Fin.sum_univ_eq_sum_range (fun i => Complex.abs (b.getD i 0) ^ 2) a.length]
    exact Finset.sum_congr rfl fun i _ => by rw [Complex.norm_eq_abs]
  have hny : ‖y‖ = signal_norm a := by
    rw [EuclideanSpace.norm_eq, signal_norm]
    congr 1
    rw [← Fin.sum_univ_eq_sum_range (fun i => Complex.abs (a.getD i 0) ^ 2) a.length]
    exact Finset.sum_congr rfl fun i _ => by rw [Complex.norm_eq_abs]
  calc Complex.abs (zero_lag_corr a b) = ‖(inner x y : ℂ)‖ := by
        rw [hinner, Complex.norm_eq_abs]
    _ ≤ ‖x‖ * ‖y‖ := norm_inner_le_norm x y
    _ = signal_norm b * signal_norm a := by rw [hnx, hny]
    _ = signal_norm a * signal_norm b := mul_comm _ _

lemma zero_lag_corr_self (a : List ℂ) :
    zero_lag_corr a a = ((∑ i in Finset.range a.length, Complex.abs (a.getD i 0) ^ 2 : ℝ) : ℂ) := by
  rw [zero_lag_corr, Complex.ofReal_sum]
  refine Finset.sum_congr rfl fun i _ => ?_
  rw [Complex.mul_conj, ← Complex.sq_abs]

/-- C5: `normalized_cross_correlation` fails exactly on a length mismatch
(with the source's message); for equal lengths it returns 0.0 when either
Euclidean norm is zero, otherwise `|⟨a,b⟩| / (‖a‖·‖b‖)`; every returned value
lies in `[0, 1]`, and correlating a non-zero signal with itself yields
exactly 1. -/
theorem normalized_cross_correlation_spec (a b : List ℂ) :
    (a.length ≠ b.length →
      normalized_cross_correlation a b
        = .error "Signals must be the same length for correlation") ∧
    ((normalized_cross_correlation a b).isOk = true ↔ a.length = b.length) ∧
    (a.length = b.length → signal_norm a = 0 ∨ signal_norm b = 0 →
      normalized_cross_correlation a b = .ok 0) ∧
    (a.length = b.length → ¬(signal_norm a = 0 ∨ signal_norm b = 0) →
      normalized_cross_correlation a b
        = .ok (Complex.abs (zero_lag_corr a b) / (signal_norm a * signal_norm b))) ∧
    (a.length = b.length → ∀ r : ℝ, normalized_cross_correlation a b = .ok r →
      0 ≤ r ∧ r ≤ 1) ∧
    (b = a → signal_norm a ≠ 0 → normalized_cross_correlation a b = .ok 1) := by
  classical
  refine ⟨?_, ?_, ?_, ?_, ?_, ?_⟩
  · intro hlen
    simp only [normalized_cross_correlation]
    rw [if_pos hlen]
  · by_cases hlen : a.length = b.length <;>
      by_cases hnorm : signal_norm a = 0 ∨ signal_norm b = 0 <;>
      simp [normalized_cross_correlation, hlen, hnorm, Except.isOk, Except.toBool]
  · intro hlen hnorm
    simp only [normalized_cross_correlation]
    rw [if_neg (by simpa using hlen), if_pos hnorm]
  · intro hlen hnorm
    simp only [normalized_cross_correlation]
    rw [if_neg (by simpa using hlen), if_neg hnorm]
  · intro hlen r hr
    by_cases hnorm : signal_norm a = 0 ∨ signal_norm b = 0
    · have h0 : normalized_cross_correlation a b = .ok 0 := by
        simp only [normalized_cross_correlation]
        rw [if_neg (by simpa using hlen), if_pos hnorm]
      rw [h0] at hr
      have hr0 : (0 : ℝ) = r := by
        injection hr
      rw [← hr0]
      norm_num
    · have hmain : normalized_cross_correlation a b
          = .ok (Complex.abs (zero_lag_corr a b) / (signal_norm a * signal_norm b)) := by
        simp only [normalized_cross_correlation]
        rw [if_neg (by simpa using hlen), if_neg hnorm]
      rw [hmain] at hr
      have hrv : Complex.abs (zero_lag_corr a b) / (signal_norm a * signal_norm b) = r := by
        injection hr
      push_neg at hnorm
      have hsa : 0 ≤ signal_norm a := Real.sqrt_nonneg _
      have hsb : 0 ≤ signal_norm b := Real.sqrt_nonneg _
      have hpos : 0 < signal_norm a * signal_norm b :=
        mul_pos (lt_of_le_of_ne hsa (Ne.symm hnorm.1)) (lt_of_le_of_ne hsb (Ne.symm hnorm.2))
      constructor
      · rw [← hrv]
        exact div_nonneg (Complex.abs.nonneg _) (le_of_lt hpos)
      · rw [← hrv]
        rw [div_le_one hpos]
        exact zero_lag_corr_le a b hlen
  · intro hba hA
    rw [hba]
    simp only [normalized_cross_correlation]
    rw [if_neg (by simp), if_neg (by simp [hA])]
    have hSnn : 0 ≤ ∑ i in Finset.range a.length, Complex.abs (a.getD i 0) ^ 2 :=
      Finset.sum_nonneg fun i _ => by positivity
    have habs : Complex.abs (zero_lag_corr a a)
        = ∑ i in Finset.range a.length, Complex.abs (a.getD i 0) ^ 2 := by
      rw [zero_lag_corr_self a, Complex.abs_ofReal]
      exact abs_of_nonneg hSnn
    have hmul : signal_norm a * signal_norm a
        = ∑ i in Finset.range a.length, Complex.abs (a.getD i 0) ^ 2 :=
      Real.mul_self_sqrt hSnn
    have hS0 : (∑ i in Finset.range a.length, Complex.abs (a.getD i 0) ^ 2) ≠ 0 := by
      intro h0
      exact hA (by rw [signal_norm, h0, Real.sqrt_zero])
    rw [habs, hmul, div_self hS0]

theorem normalized_cross_correlation_spec_witness :
    ([(1 : ℂ)] : List ℂ) = [(1 : ℂ)] ∧ signal_norm [(1 : ℂ)] ≠ 0 ∧
    normalized_cross_correlation [(1 : ℂ)] [(1 : ℂ)] = .ok 1 := by
  have hnz : signal_norm [(1 : ℂ)] ≠ 0 := by
    rw [signal_norm]
    norm_num
  exact ⟨rfl, hnz, (normalized_cross_correlation_spec [(1 : ℂ)] [(1 : ℂ)]).2.2.2.2.2 rfl hnz⟩
